import Mathlib

/-!
Shallow embedding of the G.722-style codec in `src/lib/g722_codec/`
(`g722_encode.c`, `g722_decode.c`).

Conventions for translating the C source:

* C `int` (32-bit) locals and state fields are modelled as unbounded `Int`;
  every value the code actually stores in them stays far below 2^31 on the
  traces the theorems touch, and signed overflow is undefined behaviour in C.
* C `int16_t` locals and conversions to `int16_t` are modelled with `toInt16`,
  the two's-complement truncation to 16 bits; `uint8_t` stores with `toByte`.
* C arithmetic right shift `>> n` on a signed value is floor division by
  `2 ^ n` (`asr`); left shift `<< n` is multiplication by `2 ^ n` (`shl`).
* Bitwise `&`, `|`, `^` on `int` are `Int.land`, `Int.lor`, `Int.xor`
  (two's-complement semantics).
* The encoder's `quantize` computes table indices `dqt` of the form
  `dex * 2 ^ (quantizer - 2)` with `dex ≤ 7`, which for `dex ≥ 1` reads the
  16-entry `qm4` table out of bounds.  The embedding is parametrised by an
  oracle `mem : Int → Int` giving the 16-bit value such an out-of-bounds read
  returns; in-bounds reads use the real table.  Theorems quantify over the
  oracle, so they hold whatever those reads yield.
* `predictor_pole(s->a[i], s->sr + i)` passes an `int` array where the callee
  expects `int16_t*`; on the little-endian target the callee's `a[0]` is the
  low 16 bits of `sr[i]`, i.e. `toInt16 s.sr i`, and the `int` argument
  `s->a[i]` is converted to the `int16_t` parameter, i.e. `toInt16 s.a i`.
* The dead static helpers (`seg_lookup`, `predictor_zero`, `step_size`,
  `reconstruct`, the `ilb` table) are invoked by no encode or decode path and
  are not part of the embedding.
-/

namespace G722

/-- Two's-complement truncation of an `Int` to a signed 16-bit value,
the effect of a C conversion to `int16_t`. -/
def toInt16 (x : Int) : Int := (x + 32768) % 65536 - 32768

/-- Conversion of an `Int` to `uint8_t`: reduction mod 256. -/
def toByte (x : Int) : Int := x % 256

/-- C arithmetic right shift of a (non-overflowed) signed integer:
floor division by `2 ^ n`.  `Int` division by a positive divisor floors. -/
def asr (x : Int) (n : Nat) : Int := x / 2 ^ n

/-- C left shift on a signed integer, value-level: multiplication by `2 ^ n`. -/
def shl (x : Int) (n : Nat) : Int := x * 2 ^ n

/-- `saturate` from both `g722_encode.c` and `g722_decode.c`: clamp a wide
accumulator to the signed 16-bit range. -/
def saturate (amp : Int) : Int :=
  if amp > 32767 then 32767
  else if amp < -32768 then -32768
  else amp

/-- The 16-entry `qm4` quantized-level table (identical in both files). -/
def qm4tab : List Int :=
  [0, -20456, -12896, -8968, -6288, -4240, -2584, -1200,
   20456, 12896, 8968, 6288, 4240, 2584, 1200, 0]

/-- In-bounds read of `qm4`. -/
def qm4 (i : Nat) : Int := qm4tab.getD i 0

/-- A read `qm4[i]` as the encoder's `quantize` performs it: the table for
`0 ≤ i < 16`, otherwise whatever 16-bit value sits at that address, supplied
by the oracle `mem`. -/
def qm4read (mem : Int → Int) (i : Int) : Int :=
  if 0 ≤ i ∧ i < 16 then qm4 i.toNat else toInt16 (mem i)

/-- `predictor_pole(int16_t val, int16_t *a)`:
`saturate((a[0] * val) >> 15)`.  `val` is the first C argument, `a0` the
16-bit value read through the pointer. -/
def predictor_pole (val a0 : Int) : Int := saturate (asr (a0 * val) 15)

/-- `quantize(int16_t d, int16_t y, int16_t *table, int quantizer)` from
`g722_encode.c` with `table = qm4` (its only call sites); `y` is received but
never used by the body.  All locals are `int16_t`. -/
def quantize (mem : Int → Int) (d y : Int) (quantizer : Nat) : Int :=
  let dqm : Int := toInt16 (if d ≥ 0 then d else -(d + 1))
  let dex0 : Int := toInt16 (asr dqm quantizer + Int.land (asr dqm (quantizer - 1)) 1)
  let dex : Int := if dex0 > 7 then 7 else dex0
  let dql : Int := toInt16 (shl dex quantizer)
  let dqt : Int := toInt16 (asr (dql + 2) 2)
  toInt16 (if d ≥ 0 then qm4read mem dqt else -(qm4read mem (dqt + 1)))

/-- `struct g722_encode_state_s`, one `Int` field per scalar array slot. -/
structure EncSt where
  yl : Int
  yu : Int
  dms : Int
  dml : Int
  ap : Int
  a0 : Int
  a1 : Int
  b0 : Int
  b1 : Int
  b2 : Int
  b3 : Int
  b4 : Int
  b5 : Int
  td : Int
  sr0 : Int
  sr1 : Int
  dq0 : Int
  dq1 : Int
  dq2 : Int
  dq3 : Int
  dq4 : Int
  dq5 : Int
  pk00 : Int
  pk01 : Int
  pk02 : Int
  pk10 : Int
  pk11 : Int
  pk12 : Int
  rate : Int
  shift_bits : Int
deriving DecidableEq

/-- `g722_encoder_init`: zero-fill, then set `rate`, `yl`, `yu`,
`shift_bits`.  (Allocation failure returns NULL in C; the embedding models
the initialised state itself.) -/
def g722_encoder_init (rate options : Int) : EncSt :=
  { yl := 34816, yu := 544, dms := 0, dml := 0, ap := 0, a0 := 0, a1 := 0,
    b0 := 0, b1 := 0, b2 := 0, b3 := 0, b4 := 0, b5 := 0, td := 0,
    sr0 := 0, sr1 := 0, dq0 := 0, dq1 := 0, dq2 := 0, dq3 := 0, dq4 := 0,
    dq5 := 0, pk00 := 0, pk01 := 0, pk02 := 0, pk10 := 0, pk11 := 0,
    pk12 := 0, rate := rate,
    shift_bits := if Int.land options 1 ≠ 0 then 0
                  else if rate = 48000 then 1 else 0 }

/-- One iteration of the `for` loop of `g722_encode`: consume one PCM sample
(an `int16_t` array element), produce one `uint8_t` codeword and the updated
state.  Locals are `int16_t` in C, hence the `toInt16` at each assignment
whose right-hand side can exceed 16 bits. -/
def g722_encode_step (mem : Int → Int) (s : EncSt) (pcm : Int) : Int × EncSt :=
  let wd1 : Int := toInt16 pcm
  let wd2 : Int := toInt16 (asr wd1 8)
  let wd3 : Int := toInt16 (shl (Int.land wd1 255) 8)
  let xh : Int := wd2
  let xl : Int := wd3
  let sh : Int := predictor_pole (toInt16 s.a1) (toInt16 s.sr1)
  let wd1b : Int := toInt16 (saturate (sh + s.dq0))
  let eh : Int := toInt16 (xh - wd1b)
  let dq0n : Int := quantize mem eh (toInt16 s.yu) 10
  let rh1 : Int := toInt16 (asr s.a1 9)
  let rh2 : Int := toInt16 (shl dq0n 2 - rh1)
  let sr1n : Int := saturate rh2
  let a1n : Int := s.a1 + asr (dq0n * 11) 7
  let sl : Int := predictor_pole (toInt16 s.a0) (toInt16 s.sr0)
  let wd1c : Int := toInt16 (sl + dq0n)
  let el : Int := toInt16 (xl - wd1c)
  let wd1d : Int := toInt16 (saturate el)
  let wd1e : Int := toInt16 (asr wd1d 1)
  let dq1n : Int := quantize mem wd1e (toInt16 s.yl) 9
  let wd1f : Int := toInt16 (shl dq1n 1 + s.a0)
  let sr0n : Int := saturate wd1f
  let a0n : Int := s.a0 + asr (dq1n * 9) 5
  let byte : Int :=
    if s.rate = 48000 then
      toByte (Int.lor (toByte (shl dq0n 2)) (Int.land dq1n 3))
    else
      toByte (Int.lor (toByte (shl dq0n 6)) (shl dq1n 2))
  (byte, { s with dq0 := dq0n, sr1 := sr1n, a1 := a1n,
                  dq1 := dq1n, sr0 := sr0n, a0 := a0n })

/-- `g722_encode` over a whole input buffer: the list of produced codeword
bytes together with the final state.  The C function returns `len` and writes
one byte per sample; the returned list's length carries both facts. -/
def g722_encode (mem : Int → Int) (s : EncSt) : List Int → List Int × EncSt
  | [] => ([], s)
  | x :: xs =>
    let r := g722_encode_step mem s x
    let rest := g722_encode mem r.2 xs
    (r.1 :: rest.1, rest.2)

/-- `struct g722_decode_state_s`, one `Int` field per scalar array slot
(`aIJ` is `a[I][J]`, etc.). -/
structure DecSt where
  yl : Int
  yu : Int
  dms : Int
  dml : Int
  ap0 : Int
  ap1 : Int
  a00 : Int
  a01 : Int
  a10 : Int
  a11 : Int
  b00 : Int
  b01 : Int
  b02 : Int
  b03 : Int
  b04 : Int
  b05 : Int
  b10 : Int
  b11 : Int
  b12 : Int
  b13 : Int
  b14 : Int
  b15 : Int
  pk00 : Int
  pk01 : Int
  pk02 : Int
  pk10 : Int
  pk11 : Int
  pk12 : Int
  dq00 : Int
  dq01 : Int
  dq02 : Int
  dq03 : Int
  dq04 : Int
  dq05 : Int
  dq10 : Int
  dq11 : Int
  dq12 : Int
  dq13 : Int
  dq14 : Int
  dq15 : Int
  sr00 : Int
  sr01 : Int
  sr10 : Int
  sr11 : Int
  rate : Int
  shift_bits : Int
deriving DecidableEq

/-- `g722_decoder_init`: zero-fill, then set `rate`, `yl`, `yu`,
`shift_bits` (same formula as the encoder's). -/
def g722_decoder_init (rate options : Int) : DecSt :=
  { yl := 34816, yu := 544, dms := 0, dml := 0, ap0 := 0, ap1 := 0,
    a00 := 0, a01 := 0, a10 := 0, a11 := 0,
    b00 := 0, b01 := 0, b02 := 0, b03 := 0, b04 := 0, b05 := 0,
    b10 := 0, b11 := 0, b12 := 0, b13 := 0, b14 := 0, b15 := 0,
    pk00 := 0, pk01 := 0, pk02 := 0, pk10 := 0, pk11 := 0, pk12 := 0,
    dq00 := 0, dq01 := 0, dq02 := 0, dq03 := 0, dq04 := 0, dq05 := 0,
    dq10 := 0, dq11 := 0, dq12 := 0, dq13 := 0, dq14 := 0, dq15 := 0,
    sr00 := 0, sr01 := 0, sr10 := 0, sr11 := 0, rate := rate,
    shift_bits := if Int.land options 1 ≠ 0 then 0
                  else if rate = 48000 then 1 else 0 }

/-- The `switch (s->rate)` of `g722_decode` extracting `ihigh` from one
codeword byte; `default:` falls through to the `64000` case. -/
def dec_ihigh (rate code : Int) : Int :=
  if rate = 56000 then Int.land (asr code 1) 63
  else if rate = 48000 then Int.land code 63
  else Int.land (asr code 2) 63

/-- The `switch (s->rate)` of `g722_decode` extracting `ilow` from one
codeword byte; `default:` falls through to the `64000` case. -/
def dec_ilow (rate code : Int) : Int :=
  if rate = 56000 then shl (Int.land code 1) 2
  else if rate = 48000 then 0
  else shl (Int.land code 3) 2

/-- The UPPOL2 block of `g722_decode` (it appears verbatim once per band):
the value written to `s->yu`, a function of `s->yl` and the `s->yu` it
reads. -/
def yuUpdate (yl yu : Int) : Int :=
  let wd1 : Int := saturate (asr yl 15)
  let wd2 : Int := if wd1 = 0 then 0 else asr (saturate (yu * wd1)) 15
  if wd2 = 0 then 0 else asr (yu * wd2) 15

/-- One iteration of the `for` loop of `g722_decode`: consume one codeword
byte (a `uint8_t` array element), produce one packed 16-bit PCM sample and
the updated state.  All loop locals are `int`, so no 16-bit truncation
occurs until the final store into the `int16_t` output array. -/
def g722_decode_step (s : DecSt) (byte : Int) : Int × DecSt :=
  let code : Int := toByte byte
  let ihigh0 : Int := dec_ihigh s.rate code
  let ilow0 : Int := dec_ilow s.rate code
  -- Block 5L, low band decoder, for QI = 2
  let lw1 : Int := saturate s.a10
  let lw2 : Int := asr (s.a11 * 32512) 15
  let lw3 : Int := asr (shl ilow0 14 + lw1 - lw2) 13
  let ilow : Int := if lw3 < 0 then Int.land (asr (-lw3) 10) 1 else 0
  -- Block 5L, RECONS
  let lv2 : Int := qm4 (shl ilow 2).toNat
  let lv2s : Int := asr (s.yu * lv2) 15
  let lv2c : Int := if lv2s > 16383 then 16383
                    else if lv2s < -16384 then -16384 else lv2s
  let dlowt : Int := shl lv2c 1
  let rlow : Int := saturate (asr s.yl 15) + dlowt
  -- Block 5L, PARREC
  let pk10a : Int := s.pk11
  let pk11a : Int := rlow
  -- Block 5L, UPZERO
  let lu1 : Int := asr dlowt 31
  let lu1b : Int := Int.xor lu1 s.dq10 + Int.land lu1 1
  let dq10n : Int := dlowt
  let lu2 : Int := asr (pk10a * lu1b) 8
  let lu2c : Int := if lu2 > 32767 then 32767 else lu2
  let lu3 : Int := asr (pk11a * lu1b) 8
  let lu3c : Int := if lu3 > 32767 then 32767 else lu3
  let pk10n : Int := saturate (pk10a - lu2c)
  let pk11n : Int := saturate (pk11a - lu3c)
  -- Block 5L, UPPOL2
  let yu1 : Int := yuUpdate s.yl s.yu
  -- Block 6H, high band decoder, for QI = 2
  let hw1 : Int := saturate s.a00
  let hw2 : Int := asr (s.a01 * 32512) 15
  let hw3 : Int := asr (shl ihigh0 14 + hw1 - hw2) 13
  let ihigh : Int := if hw3 < 0 then Int.land (asr (-hw3) 10) 7 else 0
  -- Block 6H, RECONS
  let hv2 : Int := qm4 (shl ihigh 1).toNat
  let hv2s : Int := asr (yu1 * hv2) 15
  let hv2c : Int := if hv2s > 16383 then 16383
                    else if hv2s < -16384 then -16384 else hv2s
  let dhigh : Int := shl hv2c 1
  let rhigh : Int := saturate (asr s.yl 15) + dhigh
  -- Block 6H, PARREC
  let pk00a : Int := s.pk01
  let pk01a : Int := rhigh
  -- Block 6H, UPZERO
  let hu1 : Int := asr dhigh 31
  let hu1b : Int := Int.xor hu1 s.dq00 + Int.land hu1 1
  let dq00n : Int := dhigh
  let hu2 : Int := asr (pk00a * hu1b) 8
  let hu2c : Int := if hu2 > 32767 then 32767 else hu2
  let hu3 : Int := asr (pk01a * hu1b) 8
  let hu3c : Int := if hu3 > 32767 then 32767 else hu3
  let pk00n : Int := saturate (pk00a - hu2c)
  let pk01n : Int := saturate (pk01a - hu3c)
  -- Block 6H, UPPOL2
  let yu2 : Int := yuUpdate s.yl yu1
  -- Recombine the bands
  let xout1 : Int := saturate (rlow + rhigh)
  let xout2 : Int := saturate (rlow - rhigh)
  let sample : Int := toInt16 (Int.lor (shl xout1 8) (Int.land xout2 255))
  (sample, { s with pk10 := pk10n, pk11 := pk11n, dq10 := dq10n,
                    pk00 := pk00n, pk01 := pk01n, dq00 := dq00n,
                    yu := yu2 })

/-- `g722_decode` over a whole input buffer: the list of produced PCM
samples together with the final state.  The C function returns `outlen`,
incremented once per processed byte. -/
def g722_decode (s : DecSt) : List Int → List Int × DecSt
  | [] => ([], s)
  | x :: xs =>
    let r := g722_decode_step s x
    let rest := g722_decode r.2 xs
    (r.1 :: rest.1, rest.2)

/-- A fixed oracle for out-of-bounds `qm4` reads, used to instantiate
oracle-parametric theorems at concrete inputs: every stray read returns 0. -/
def memZero : Int → Int := fun _ => 0

/-- The decoder-state facts that make every decoded sample constant:
`g722_decode` never assigns any `a[][]` entry nor `yl`, so states reachable
from `g722_decoder_init` keep all four pole coefficients zero and
`yl = 34816`. -/
def DecQuiet (s : DecSt) : Prop :=
  s.a00 = 0 ∧ s.a01 = 0 ∧ s.a10 = 0 ∧ s.a11 = 0 ∧ s.yl = 34816

instance (s : DecSt) : Decidable (DecQuiet s) := by
  unfold DecQuiet; infer_instance

/-! ### Arithmetic and bitwise helper lemmas -/

theorem asr_zero (n : Nat) : asr 0 n = 0 := by simp [asr]

theorem shl_zero (n : Nat) : shl 0 n = 0 := by simp [shl]

theorem saturate_zero : saturate 0 = 0 := by decide

theorem qm4_zero : qm4 0 = 0 := rfl

theorem toInt16_bounds (x : Int) : -32768 ≤ toInt16 x ∧ toInt16 x ≤ 32767 := by
  unfold toInt16; omega

theorem saturate_toInt16 (x : Int) : saturate (toInt16 x) = toInt16 x := by
  unfold saturate toInt16; split_ifs <;> omega

theorem toInt16_idem (x : Int) : toInt16 (toInt16 x) = toInt16 x := by
  unfold toInt16; omega

theorem land_zero_eq (x : Int) : Int.land x 0 = 0 := by
  cases x with
  | ofNat m => show Int.land (Int.ofNat m) (Int.ofNat 0) = 0
               simp [Int.land]
  | negSucc m => show Int.land (Int.negSucc m) (Int.ofNat 0) = 0
                 simp [Int.land, Nat.ldiff]

theorem lor_zero_eq (x : Int) : Int.lor x 0 = x := by
  cases x with
  | ofNat m => show Int.lor (Int.ofNat m) (Int.ofNat 0) = Int.ofNat m
               simp [Int.lor]
  | negSucc m => show Int.lor (Int.negSucc m) (Int.ofNat 0) = Int.negSucc m
                 simp [Int.lor, Nat.ldiff]

theorem bit_emod_two_pow (b : Bool) (m : Int) (k : Nat) :
    Int.bit b m % 2 ^ (k + 1) = Int.bit b (m % 2 ^ k) := by
  have hpow : (0 : Int) < 2 ^ k := by positivity
  have hdec := Int.ediv_add_emod m (2 ^ k)
  have hlo := Int.emod_nonneg m (by positivity : (2 ^ k : Int) ≠ 0)
  have hhi := Int.emod_lt_of_pos m hpow
  rw [Int.bit_val, Int.bit_val]
  have h2 : (2 : Int) ^ (k + 1) = 2 * 2 ^ k := by ring
  rw [h2]
  have key : ∀ c : Int, 0 ≤ c → c < 2 →
      (2 * m + c) % (2 * 2 ^ k) = 2 * (m % 2 ^ k) + c := by
    intro c hc0 hc2
    have hsplit : 2 * m + c = (2 * (m % 2 ^ k) + c) + (2 * 2 ^ k) * (m / 2 ^ k) := by
      linarith [hdec]
    rw [hsplit, Int.add_mul_emod_self_left]
    exact Int.emod_eq_of_lt (by linarith) (by linarith)
  cases b
  · simpa using key 0 (by norm_num) (by norm_num)
  · simpa using key 1 (by norm_num) (by norm_num)

theorem land_mask (k : Nat) (x : Int) : Int.land x (2 ^ k - 1) = x % 2 ^ k := by
  induction k generalizing x with
  | zero => simpa using land_zero_eq x
  | succ k ih =>
    induction x using Int.bitCasesOn with
    | _ b m =>
      have hmask : (2 ^ (k + 1) - 1 : Int) = Int.bit true (2 ^ k - 1) := by
        rw [Int.bit_val]; simp only [cond_true]; ring
      rw [hmask, Int.land_bit, ih, bit_emod_two_pow]
      simp

theorem land_one (x : Int) : Int.land x 1 = x % 2 := by
  have h := land_mask 1 x; norm_num at h; exact h

theorem land_three (x : Int) : Int.land x 3 = x % 4 := by
  have h := land_mask 2 x; norm_num at h; exact h

theorem land_seven (x : Int) : Int.land x 7 = x % 8 := by
  have h := land_mask 3 x; norm_num at h; exact h

theorem land_sixtythree (x : Int) : Int.land x 63 = x % 64 := by
  have h := land_mask 6 x; norm_num at h; exact h

theorem land_mask8 (x : Int) : Int.land x 255 = x % 256 := by
  have h := land_mask 8 x; norm_num at h; exact h

theorem lor_emod_two_pow (k : Nat) (x y : Int) :
    Int.lor x y % 2 ^ k = Int.lor (x % 2 ^ k) (y % 2 ^ k) := by
  induction k generalizing x y with
  | zero => simp only [pow_zero, Int.emod_one]; decide
  | succ k ih =>
    induction x using Int.bitCasesOn with
    | _ bx mx =>
      induction y using Int.bitCasesOn with
      | _ by' my =>
        rw [Int.lor_bit, bit_emod_two_pow, bit_emod_two_pow, bit_emod_two_pow,
          Int.lor_bit, ih]

theorem lor_four_mul_add (m u : Int) (hu0 : 0 ≤ u) (hu4 : u < 4) :
    Int.lor (4 * m) u = 4 * m + u := by
  have h1 : (1 : Int) = Int.bit true (Int.bit false 0) := by decide
  have h2 : (2 : Int) = Int.bit false (Int.bit true 0) := by decide
  have h3 : (3 : Int) = Int.bit true (Int.bit true 0) := by decide
  have hm : 4 * m = Int.bit false (Int.bit false m) := by
    rw [Int.bit_val, Int.bit_val]; simp only [cond_false]; ring
  interval_cases u
  · rw [lor_zero_eq]; ring
  · conv_lhs => rw [hm, h1, Int.lor_bit, Int.lor_bit, lor_zero_eq]
    simp [Int.bit_val]; ring
  · conv_lhs => rw [hm, h2, Int.lor_bit, Int.lor_bit, lor_zero_eq]
    simp [Int.bit_val]; ring
  · conv_lhs => rw [hm, h3, Int.lor_bit, Int.lor_bit, lor_zero_eq]
    simp [Int.bit_val]; ring

/-! ### Structural lemmas about the buffer transforms -/

theorem g722_encode_length (mem : Int → Int) (pcm : List Int) :
    ∀ s : EncSt, (g722_encode mem s pcm).1.length = pcm.length := by
  induction pcm with
  | nil => intro s; rfl
  | cons x xs ih => intro s; simp [g722_encode, ih]

theorem g722_decode_length (bytes : List Int) :
    ∀ s : DecSt, (g722_decode s bytes).1.length = bytes.length := by
  induction bytes with
  | nil => intro s; rfl
  | cons x xs ih => intro s; simp [g722_decode, ih]

theorem g722_encode_append (mem : Int → Int) (xs ys : List Int) :
    ∀ s : EncSt,
      g722_encode mem s (xs ++ ys) =
        ((g722_encode mem s xs).1 ++
            (g722_encode mem (g722_encode mem s xs).2 ys).1,
          (g722_encode mem (g722_encode mem s xs).2 ys).2) := by
  induction xs with
  | nil => intro s; simp [g722_encode]
  | cons x xs ih => intro s; simp [g722_encode, ih]

theorem g722_decode_append (xs ys : List Int) :
    ∀ s : DecSt,
      g722_decode s (xs ++ ys) =
        ((g722_decode s xs).1 ++ (g722_decode (g722_decode s xs).2 ys).1,
          (g722_decode (g722_decode s xs).2 ys).2) := by
  induction xs with
  | nil => intro s; simp [g722_decode]
  | cons x xs ih => intro s; simp [g722_decode, ih]

theorem g722_encode_step_yl (mem : Int → Int) (s : EncSt) (x : Int) :
    (g722_encode_step mem s x).2.yl = s.yl := rfl

theorem g722_encode_step_yu (mem : Int → Int) (s : EncSt) (x : Int) :
    (g722_encode_step mem s x).2.yu = s.yu := rfl

theorem g722_encode_step_rate (mem : Int → Int) (s : EncSt) (x : Int) :
    (g722_encode_step mem s x).2.rate = s.rate := rfl

theorem g722_encode_yl_yu (mem : Int → Int) (pcm : List Int) :
    ∀ s : EncSt, (g722_encode mem s pcm).2.yl = s.yl ∧
      (g722_encode mem s pcm).2.yu = s.yu := by
  induction pcm with
  | nil => intro s; exact ⟨rfl, rfl⟩
  | cons x xs ih =>
    intro s
    have h := ih (g722_encode_step mem s x).2
    simpa [g722_encode] using h

theorem g722_decode_step_yl (s : DecSt) (x : Int) :
    (g722_decode_step s x).2.yl = s.yl := rfl

theorem g722_decode_step_yu (s : DecSt) (x : Int) :
    (g722_decode_step s x).2.yu = yuUpdate s.yl (yuUpdate s.yl s.yu) := rfl

theorem g722_decode_yl (bytes : List Int) :
    ∀ s : DecSt, (g722_decode s bytes).2.yl = s.yl := by
  induction bytes with
  | nil => intro s; rfl
  | cons x xs ih =>
    intro s
    have h := ih (g722_decode_step s x).2
    simpa [g722_decode] using h

theorem g722_encode_step_sb (mem : Int → Int) (s : EncSt) (x b : Int) :
    g722_encode_step mem { s with shift_bits := b } x =
      ((g722_encode_step mem s x).1,
        { (g722_encode_step mem s x).2 with shift_bits := b }) := rfl

theorem g722_decode_step_sb (s : DecSt) (x b : Int) :
    g722_decode_step { s with shift_bits := b } x =
      ((g722_decode_step s x).1,
        { (g722_decode_step s x).2 with shift_bits := b }) := rfl

theorem g722_encode_sb (mem : Int → Int) (pcm : List Int) :
    ∀ (s : EncSt) (b : Int),
      g722_encode mem { s with shift_bits := b } pcm =
        ((g722_encode mem s pcm).1,
          { (g722_encode mem s pcm).2 with shift_bits := b }) := by
  induction pcm with
  | nil => intro s b; rfl
  | cons x xs ih =>
    intro s b
    have e1 : g722_encode mem { s with shift_bits := b } (x :: xs) =
        ((g722_encode_step mem { s with shift_bits := b } x).1 ::
          (g722_encode mem (g722_encode_step mem { s with shift_bits := b } x).2 xs).1,
         (g722_encode mem (g722_encode_step mem { s with shift_bits := b } x).2 xs).2) := rfl
    have e2 : g722_encode mem s (x :: xs) =
        ((g722_encode_step mem s x).1 ::
          (g722_encode mem (g722_encode_step mem s x).2 xs).1,
         (g722_encode mem (g722_encode_step mem s x).2 xs).2) := rfl
    rw [e1, e2, g722_encode_step_sb]
    dsimp only
    rw [ih]

theorem g722_decode_sb (bytes : List Int) :
    ∀ (s : DecSt) (b : Int),
      g722_decode { s with shift_bits := b } bytes =
        ((g722_decode s bytes).1,
          { (g722_decode s bytes).2 with shift_bits := b }) := by
  induction bytes with
  | nil => intro s b; rfl
  | cons x xs ih =>
    intro s b
    have e1 : g722_decode { s with shift_bits := b } (x :: xs) =
        ((g722_decode_step { s with shift_bits := b } x).1 ::
          (g722_decode (g722_decode_step { s with shift_bits := b } x).2 xs).1,
         (g722_decode (g722_decode_step { s with shift_bits := b } x).2 xs).2) := rfl
    have e2 : g722_decode s (x :: xs) =
        ((g722_decode_step s x).1 ::
          (g722_decode (g722_decode_step s x).2 xs).1,
         (g722_decode (g722_decode_step s x).2 xs).2) := rfl
    rw [e1, e2, g722_decode_step_sb]
    dsimp only
    rw [ih]

theorem g722_encode_step_rate_congr (mem : Int → Int) (s : EncSt) (x r1 r2 : Int)
    (h1 : r1 ≠ 48000) (h2 : r2 ≠ 48000) :
    g722_encode_step mem { s with rate := r1 } x =
      ((g722_encode_step mem { s with rate := r2 } x).1,
        { (g722_encode_step mem { s with rate := r2 } x).2 with rate := r1 }) := by
  cases s
  simp only [g722_encode_step]
  simp only [if_neg h1, if_neg h2]

theorem g722_decode_step_rate_congr (s : DecSt) (x r1 r2 : Int)
    (h1a : r1 ≠ 48000) (h1b : r1 ≠ 56000) (h2a : r2 ≠ 48000) (h2b : r2 ≠ 56000) :
    g722_decode_step { s with rate := r1 } x =
      ((g722_decode_step { s with rate := r2 } x).1,
        { (g722_decode_step { s with rate := r2 } x).2 with rate := r1 }) := by
  cases s
  simp only [g722_decode_step, dec_ihigh, dec_ilow]
  simp only [if_neg h1a, if_neg h1b, if_neg h2a, if_neg h2b]

theorem g722_encode_rate_congr (mem : Int → Int) (pcm : List Int) :
    ∀ (s : EncSt) (r1 r2 : Int), r1 ≠ 48000 → r2 ≠ 48000 →
      g722_encode mem { s with rate := r1 } pcm =
        ((g722_encode mem { s with rate := r2 } pcm).1,
          { (g722_encode mem { s with rate := r2 } pcm).2 with rate := r1 }) := by
  induction pcm with
  | nil => intro s r1 r2 h1 h2; rfl
  | cons x xs ih =>
    intro s r1 r2 h1 h2
    have e1 : g722_encode mem { s with rate := r1 } (x :: xs) =
        ((g722_encode_step mem { s with rate := r1 } x).1 ::
          (g722_encode mem (g722_encode_step mem { s with rate := r1 } x).2 xs).1,
         (g722_encode mem (g722_encode_step mem { s with rate := r1 } x).2 xs).2) := rfl
    have e2 : g722_encode mem { s with rate := r2 } (x :: xs) =
        ((g722_encode_step mem { s with rate := r2 } x).1 ::
          (g722_encode mem (g722_encode_step mem { s with rate := r2 } x).2 xs).1,
         (g722_encode mem (g722_encode_step mem { s with rate := r2 } x).2 xs).2) := rfl
    rw [e1, e2, g722_encode_step_rate_congr mem s x r1 r2 h1 h2]
    dsimp only
    rw [ih _ r1 r2 h1 h2]
    have e3 : ({ (g722_encode_step mem { s with rate := r2 } x).2 with rate := r2 } :
        EncSt) = (g722_encode_step mem { s with rate := r2 } x).2 := rfl
    rw [e3]

theorem g722_decode_rate_congr (bytes : List Int) :
    ∀ (s : DecSt) (r1 r2 : Int), r1 ≠ 48000 → r1 ≠ 56000 → r2 ≠ 48000 →
      r2 ≠ 56000 →
      g722_decode { s with rate := r1 } bytes =
        ((g722_decode { s with rate := r2 } bytes).1,
          { (g722_decode { s with rate := r2 } bytes).2 with rate := r1 }) := by
  induction bytes with
  | nil => intro s r1 r2 h1a h1b h2a h2b; rfl
  | cons x xs ih =>
    intro s r1 r2 h1a h1b h2a h2b
    have e1 : g722_decode { s with rate := r1 } (x :: xs) =
        ((g722_decode_step { s with rate := r1 } x).1 ::
          (g722_decode (g722_decode_step { s with rate := r1 } x).2 xs).1,
         (g722_decode (g722_decode_step { s with rate := r1 } x).2 xs).2) := rfl
    have e2 : g722_decode { s with rate := r2 } (x :: xs) =
        ((g722_decode_step { s with rate := r2 } x).1 ::
          (g722_decode (g722_decode_step { s with rate := r2 } x).2 xs).1,
         (g722_decode (g722_decode_step { s with rate := r2 } x).2 xs).2) := rfl
    rw [e1, e2, g722_decode_step_rate_congr s x r1 r2 h1a h1b h2a h2b]
    dsimp only
    rw [ih _ r1 r2 h1a h1b h2a h2b]
    have e3 : ({ (g722_decode_step { s with rate := r2 } x).2 with rate := r2 } :
        DecSt) = (g722_decode_step { s with rate := r2 } x).2 := rfl
    rw [e3]

/-! ### The decoder's constant output -/

theorem dec_step_out_512 (s : DecSt) (c : Int)
    (h00 : s.a00 = 0) (h01 : s.a01 = 0) (h10 : s.a10 = 0) (h11 : s.a11 = 0)
    (hyl : s.yl = 34816) : (g722_decode_step s c).1 = 512 := by
  have hil : 0 ≤ dec_ilow s.rate (toByte c) := by
    unfold dec_ilow shl toByte
    split_ifs <;> simp [land_one, land_three] <;> omega
  have hih : 0 ≤ dec_ihigh s.rate (toByte c) := by
    unfold dec_ihigh asr toByte
    split_ifs <;> simp [land_sixtythree] <;> omega
  have hc1 : ¬ (asr (shl (dec_ilow s.rate (toByte c)) 14 + saturate 0 -
      asr (0 * 32512) 15) 13 < 0) := by
    rw [not_lt]
    have e1 : (saturate 0 : Int) = 0 := by decide
    have e2 : asr ((0 : Int) * 32512) 15 = 0 := by decide
    rw [e1, e2]
    unfold asr shl
    exact Int.ediv_nonneg (by omega) (by positivity)
  have hc2 : ¬ (asr (shl (dec_ihigh s.rate (toByte c)) 14 + saturate 0 -
      asr (0 * 32512) 15) 13 < 0) := by
    rw [not_lt]
    have e1 : (saturate 0 : Int) = 0 := by decide
    have e2 : asr ((0 : Int) * 32512) 15 = 0 := by decide
    rw [e1, e2]
    unfold asr shl
    exact Int.ediv_nonneg (by omega) (by positivity)
  simp only [g722_decode_step, h00, h01, h10, h11, hyl, if_neg hc1, if_neg hc2]
  norm_num [shl, saturate, asr, toInt16, qm4, qm4tab, land_mask8, lor_zero_eq]

theorem dec_step_quiet (s : DecSt) (c : Int) (h : DecQuiet s) :
    DecQuiet (g722_decode_step s c).2 := h

theorem dec_quiet_init (rate options : Int) :
    DecQuiet (g722_decoder_init rate options) := ⟨rfl, rfl, rfl, rfl, rfl⟩

theorem dec_run_512 (bytes : List Int) :
    ∀ s : DecSt, DecQuiet s →
      (g722_decode s bytes).1 = List.replicate bytes.length 512 ∧
        DecQuiet (g722_decode s bytes).2 := by
  induction bytes with
  | nil => intro s h; exact ⟨rfl, h⟩
  | cons x xs ih =>
    intro s h
    obtain ⟨h1, h2⟩ := ih (g722_decode_step s x).2 (dec_step_quiet s x h)
    refine ⟨?_, h2⟩
    show (g722_decode_step s x).1 ::
      (g722_decode (g722_decode_step s x).2 xs).1 = _
    rw [dec_step_out_512 s x h.1 h.2.1 h.2.2.1 h.2.2.2.1 h.2.2.2.2, h1]
    rfl

/-! ### Codeword packing arithmetic -/

theorem byte48_eq (d0 d1 : Int) :
    toByte (Int.lor (toByte (shl d0 2)) (Int.land d1 3)) =
      4 * (d0 % 64) + d1 % 4 := by
  have ht : toByte (shl d0 2) = 4 * (d0 % 64) := by
    unfold toByte shl; omega
  have hu : Int.land d1 3 = d1 % 4 := land_three d1
  have hu0 : 0 ≤ d1 % 4 := by omega
  have hu4 : d1 % 4 < 4 := by omega
  rw [ht, hu, lor_four_mul_add (d0 % 64) (d1 % 4) hu0 hu4]
  unfold toByte
  omega

theorem byteElse_eq (d0 d1 : Int) :
    toByte (Int.lor (toByte (shl d0 6)) (shl d1 2)) =
      Int.lor (shl d0 6) (shl d1 2) % 256 := by
  have h256 : (256 : Int) = 2 ^ 8 := by norm_num
  unfold toByte
  rw [h256, lor_emod_two_pow, lor_emod_two_pow]
  have : shl d0 6 % 2 ^ 8 % 2 ^ 8 = shl d0 6 % 2 ^ 8 := by omega
  rw [this]

/-! ### Claim theorems -/

/-- Claim C1: for every input buffer, oracle, and state, `g722_encode`
produces exactly one codeword byte per PCM sample and `g722_decode` exactly
one PCM sample per input byte — the output list's length equals the input
list's length, which is also the C functions' return value (`len`,
resp. `outlen`); no input is rejected and no processing stops early. -/
theorem C1_size_preserving :
    (∀ (mem : Int → Int) (s : EncSt) (pcm : List Int),
      (g722_encode mem s pcm).1.length = pcm.length) ∧
    (∀ (s : DecSt) (bytes : List Int),
      (g722_decode s bytes).1.length = bytes.length) :=
  ⟨fun mem s pcm => g722_encode_length mem pcm s,
   fun s bytes => g722_decode_length bytes s⟩

/-- Claim C2: splitting one `g722_encode` (resp. `g722_decode`) call into two
sequential calls on the same state yields the same concatenated output and
the same final state as one call over the concatenated input: the transforms
are folds over the state and call boundaries carry no information. -/
theorem C2_split_invariance :
    (∀ (mem : Int → Int) (s : EncSt) (xs ys : List Int),
      (g722_encode mem s (xs ++ ys)).1 =
          (g722_encode mem s xs).1 ++
            (g722_encode mem (g722_encode mem s xs).2 ys).1 ∧
        (g722_encode mem s (xs ++ ys)).2 =
          (g722_encode mem (g722_encode mem s xs).2 ys).2) ∧
    (∀ (s : DecSt) (xs ys : List Int),
      (g722_decode s (xs ++ ys)).1 =
          (g722_decode s xs).1 ++ (g722_decode (g722_decode s xs).2 ys).1 ∧
        (g722_decode s (xs ++ ys)).2 =
          (g722_decode (g722_decode s xs).2 ys).2) := by
  constructor
  · intro mem s xs ys
    rw [g722_encode_append mem xs ys s]
    exact ⟨rfl, rfl⟩
  · intro s xs ys
    rw [g722_decode_append xs ys s]
    exact ⟨rfl, rfl⟩

/-- Claim C3: `g722_decode` writes the constant PCM sample 512 for every
input byte.  The decoder never assigns the `a[][]` coefficients, so on every
state reachable from `g722_decoder_init` (captured by `DecQuiet`: the four
pole coefficients are 0 and `yl = 34816`) the re-derived `ilow` and `ihigh`
are forced to 0, giving `dlowt = dhigh = 0`, `rlow = rhigh = 1`, and output
`(2 << 8) | 0 = 512`, independent of the input bytes, the rate and the
options. -/
theorem C3_decoder_output_constant :
    (∀ rate options : Int, DecQuiet (g722_decoder_init rate options)) ∧
    (∀ (s : DecSt) (bytes : List Int), DecQuiet s →
      (g722_decode s bytes).1 = List.replicate bytes.length 512 ∧
        DecQuiet (g722_decode s bytes).2) :=
  ⟨dec_quiet_init, fun s bytes h => dec_run_512 bytes s h⟩

/-- Witness for C3 at a concrete decoder run. -/
theorem C3_decoder_output_constant_witness :
    (g722_decode (g722_decoder_init 64000 0) [0, 17, 255]).1 =
      List.replicate 3 512 :=
  (C3_decoder_output_constant.2 (g722_decoder_init 64000 0) [0, 17, 255]
    (by decide)).1

/-- Claim C7: the transforms are deterministic — two runs on freshly created,
identically configured states fed the identical input produce identical
output sequences and identical final states (the embedding fixes one oracle
`mem` for the out-of-bounds table reads, i.e. one memory image). -/
theorem C7_determinism :
    (∀ (mem : Int → Int) (r o : Int) (pcm : List Int) (s1 s2 : EncSt),
      s1 = g722_encoder_init r o → s2 = g722_encoder_init r o →
      g722_encode mem s1 pcm = g722_encode mem s2 pcm) ∧
    (∀ (r o : Int) (bytes : List Int) (s1 s2 : DecSt),
      s1 = g722_decoder_init r o → s2 = g722_decoder_init r o →
      g722_decode s1 bytes = g722_decode s2 bytes) := by
  constructor
  · intro mem r o pcm s1 s2 h1 h2; rw [h1, h2]
  · intro r o bytes s1 s2 h1 h2; rw [h1, h2]

/-- Witness for C7 at concrete runs. -/
theorem C7_determinism_witness :
    g722_encode memZero (g722_encoder_init 64000 0) [5, -7] =
      g722_encode memZero (g722_encoder_init 64000 0) [5, -7] ∧
    g722_decode (g722_decoder_init 48000 1) [9] =
      g722_decode (g722_decoder_init 48000 1) [9] :=
  ⟨C7_determinism.1 memZero 64000 0 [5, -7] _ _ rfl rfl,
   C7_determinism.2 48000 1 [9] _ _ rfl rfl⟩

/-- Claim C8: the `options` argument never affects transform output: encoders
(resp. decoders) created with the same rate and different options produce the
same outputs; `options` only determines `shift_bits` (0 when bit 0 of
`options` is set, otherwise 1 exactly when the rate is 48000), and neither
`g722_encode_step` nor `g722_decode_step` reads `shift_bits`. -/
theorem C8_options_oblivious :
    (∀ (mem : Int → Int) (r o1 o2 : Int) (pcm : List Int),
      (g722_encode mem (g722_encoder_init r o1) pcm).1 =
        (g722_encode mem (g722_encoder_init r o2) pcm).1) ∧
    (∀ (r o1 o2 : Int) (bytes : List Int),
      (g722_decode (g722_decoder_init r o1) bytes).1 =
        (g722_decode (g722_decoder_init r o2) bytes).1) ∧
    (∀ r o : Int, (g722_encoder_init r o).shift_bits =
        if o % 2 = 1 then 0 else if r = 48000 then 1 else 0) ∧
    (∀ r o : Int, (g722_decoder_init r o).shift_bits =
        if o % 2 = 1 then 0 else if r = 48000 then 1 else 0) ∧
    (∀ (mem : Int → Int) (s : EncSt) (x b : Int),
      (g722_encode_step mem { s with shift_bits := b } x).1 =
        (g722_encode_step mem s x).1) ∧
    (∀ (s : DecSt) (x b : Int),
      (g722_decode_step { s with shift_bits := b } x).1 =
        (g722_decode_step s x).1) := by
  refine ⟨?_, ?_, ?_, ?_, ?_, ?_⟩
  · intro mem r o1 o2 pcm
    have h : g722_encoder_init r o1 =
        { g722_encoder_init r o2 with
            shift_bits := (g722_encoder_init r o1).shift_bits } := rfl
    rw [h, g722_encode_sb]
  · intro r o1 o2 bytes
    have h : g722_decoder_init r o1 =
        { g722_decoder_init r o2 with
            shift_bits := (g722_decoder_init r o1).shift_bits } := rfl
    rw [h, g722_decode_sb]
  · intro r o
    show (if Int.land o 1 ≠ 0 then 0 else if r = 48000 then 1 else 0) = _
    rw [land_one]
    by_cases h : o % 2 = 1
    · rw [if_pos (show o % 2 ≠ 0 by omega), if_pos h]
    · rw [if_neg (show ¬ o % 2 ≠ 0 by omega), if_neg h]
  · intro r o
    show (if Int.land o 1 ≠ 0 then 0 else if r = 48000 then 1 else 0) = _
    rw [land_one]
    by_cases h : o % 2 = 1
    · rw [if_pos (show o % 2 ≠ 0 by omega), if_pos h]
    · rw [if_neg (show ¬ o % 2 ≠ 0 by omega), if_neg h]
  · intro mem s x b
    rw [g722_encode_step_sb]
  · intro s x b
    rw [g722_decode_step_sb]

/-- Claim C9: `yl` is never modified by either transform (34816 on any state
produced by init); the encoder also leaves `yu` unchanged, while the decoder
rewrites `yu` on each sample purely as a function of `yl` and the previous
`yu` (two applications of the UPPOL2 computation `yuUpdate`). -/
theorem C9_yl_yu_frame :
    (∀ (mem : Int → Int) (s : EncSt) (pcm : List Int),
      (g722_encode mem s pcm).2.yl = s.yl ∧
        (g722_encode mem s pcm).2.yu = s.yu) ∧
    (∀ (s : DecSt) (bytes : List Int), (g722_decode s bytes).2.yl = s.yl) ∧
    (∀ (s : DecSt) (x : Int),
      (g722_decode_step s x).2.yu = yuUpdate s.yl (yuUpdate s.yl s.yu)) ∧
    (∀ r o : Int, (g722_encoder_init r o).yl = 34816 ∧
      (g722_decoder_init r o).yl = 34816) :=
  ⟨fun mem s pcm => g722_encode_yl_yu mem pcm s,
   fun s bytes => g722_decode_yl bytes s,
   fun s x => g722_decode_step_yu s x,
   fun r o => ⟨rfl, rfl⟩⟩

/-- Claim C6: a rate outside {48000, 56000, 64000} behaves exactly as 64000:
with the same options and inputs, encoder and decoder produce the same
output sequences and the same state evolution, the final states differing at
most in the stored `rate` field itself. -/
theorem C6_unknown_rate_fallback (mem : Int → Int) (r o : Int)
    (pcm bytes : List Int) (h1 : r ≠ 48000) (h2 : r ≠ 56000)
    (h3 : r ≠ 64000) :
    ((g722_encode mem (g722_encoder_init r o) pcm).1 =
        (g722_encode mem (g722_encoder_init 64000 o) pcm).1 ∧
      (g722_encode mem (g722_encoder_init r o) pcm).2 =
        { (g722_encode mem (g722_encoder_init 64000 o) pcm).2 with
            rate := r }) ∧
    ((g722_decode (g722_decoder_init r o) bytes).1 =
        (g722_decode (g722_decoder_init 64000 o) bytes).1 ∧
      (g722_decode (g722_decoder_init r o) bytes).2 =
        { (g722_decode (g722_decoder_init 64000 o) bytes).2 with
            rate := r }) := by
  have he : g722_encoder_init r o =
      { g722_encoder_init 64000 o with rate := r } := by
    unfold g722_encoder_init
    simp [h1]
  have hd : g722_decoder_init r o =
      { g722_decoder_init 64000 o with rate := r } := by
    unfold g722_decoder_init
    simp [h1]
  have hc := g722_encode_rate_congr mem pcm (g722_encoder_init 64000 o) r
    64000 h1 (by norm_num)
  have hc2 := g722_decode_rate_congr bytes (g722_decoder_init 64000 o) r
    64000 h1 h2 (by norm_num) (by norm_num)
  have e64 : ({ g722_encoder_init 64000 o with rate := (64000 : Int) } :
      EncSt) = g722_encoder_init 64000 o := rfl
  have d64 : ({ g722_decoder_init 64000 o with rate := (64000 : Int) } :
      DecSt) = g722_decoder_init 64000 o := rfl
  rw [e64] at hc
  rw [d64] at hc2
  rw [he, hd, hc, hc2]
  exact ⟨⟨rfl, rfl⟩, ⟨rfl, rfl⟩⟩

/-- Witness for C6 at the unrecognized rate 12345. -/
theorem C6_unknown_rate_fallback_witness :
    ((g722_encode memZero (g722_encoder_init 12345 0) [255]).1 =
        (g722_encode memZero (g722_encoder_init 64000 0) [255]).1 ∧
      (g722_encode memZero (g722_encoder_init 12345 0) [255]).2 =
        { (g722_encode memZero (g722_encoder_init 64000 0) [255]).2 with
            rate := 12345 }) ∧
    ((g722_decode (g722_decoder_init 12345 0) [7]).1 =
        (g722_decode (g722_decoder_init 64000 0) [7]).1 ∧
      (g722_decode (g722_decoder_init 12345 0) [7]).2 =
        { (g722_decode (g722_decoder_init 64000 0) [7]).2 with
            rate := 12345 }) :=
  C6_unknown_rate_fallback memZero 12345 0 [255] [7] (by norm_num)
    (by norm_num) (by norm_num)

/-- Counterexample to claim C4 as stated: on a fresh encoder (rate 64000,
options 0) fed the single sample 255, the low band quantizes `dq[1] = 20456`
with `a[0] = 0` beforehand; the claimed `sr[0] = saturate((dq[1] << 1) +
a[0]) = saturate(40912) = 32767`, but the code stores the 16-bit-wrapped
value `-24624`, because `(s->dq[1] << 1) + s->a[0]` is assigned to the
`int16_t` local `wd1` before `saturate` sees it. -/
theorem C4_counterexample :
    (g722_encode_step memZero (g722_encoder_init 64000 0) 255).2.dq1 =
        20456 ∧
    (g722_encoder_init 64000 0).a0 = 0 ∧
    (g722_encode_step memZero (g722_encoder_init 64000 0) 255).2.sr0 =
        -24624 ∧
    saturate (shl 20456 1 + 0) = 32767 ∧ ((-24624 : Int) ≠ 32767) :=
  ⟨by decide, rfl, by decide, by decide, by decide⟩

/-- Amended claim C4: after each sample, the stored histories satisfy
`sr[1] = wrap16((dq[0] << 2) − wrap16(a[1] >> 9))` and
`sr[0] = wrap16((dq[1] << 1) + a[0])`, where `wrap16` (`toInt16`) is
two's-complement truncation to 16 bits — not saturation of the full-width
result: the arithmetic is stored into `int16_t` locals (`rh1`, `rh2`, `wd1`)
first, so `saturate` is applied to an already-wrapped value and is the
identity.  `dq[0]`, `dq[1]` are the quantized values produced for that
sample and `a[1]`, `a[0]` the pole coefficients before their per-sample
adaptation step, as in the original claim. -/
theorem C4_sr_wrap_recurrence (mem : Int → Int) (s : EncSt) (x : Int) :
    (g722_encode_step mem s x).2.sr1 =
      toInt16 (shl (g722_encode_step mem s x).2.dq0 2 -
        toInt16 (asr s.a1 9)) ∧
    (g722_encode_step mem s x).2.sr0 =
      toInt16 (shl (g722_encode_step mem s x).2.dq1 1 + s.a0) :=
  ⟨saturate_toInt16 _, saturate_toInt16 _⟩

/-- Claim C5: packing law.  At rate 48000 the produced byte's low 2 bits
equal `dq1 & 0x3`, its high 6 bits equal `dq0 << 2` (i.e. `byte >> 2 = dq0
mod 64`), and the byte is `((dq0 << 2) | (dq1 & 0x3)) mod 256`; at every
other rate (56000 and 64000 share the formula) the byte is
`((dq0 << 6) | (dq1 << 2)) mod 256`, where `dq0`, `dq1` are the sample's
quantized values as stored in the post-state. -/
theorem C5_packing (mem : Int → Int) (s : EncSt) (x : Int) :
    (s.rate = 48000 →
      Int.land (g722_encode_step mem s x).1 3 =
          Int.land (g722_encode_step mem s x).2.dq1 3 ∧
        asr (g722_encode_step mem s x).1 2 =
          (g722_encode_step mem s x).2.dq0 % 64 ∧
        (g722_encode_step mem s x).1 =
          Int.lor (shl (g722_encode_step mem s x).2.dq0 2)
            (Int.land (g722_encode_step mem s x).2.dq1 3) % 256) ∧
    (s.rate ≠ 48000 →
      (g722_encode_step mem s x).1 =
        Int.lor (shl (g722_encode_step mem s x).2.dq0 6)
          (shl (g722_encode_step mem s x).2.dq1 2) % 256) := by
  have hb : (g722_encode_step mem s x).1 =
      if s.rate = 48000 then
        toByte (Int.lor (toByte (shl (g722_encode_step mem s x).2.dq0 2))
          (Int.land (g722_encode_step mem s x).2.dq1 3))
      else
        toByte (Int.lor (toByte (shl (g722_encode_step mem s x).2.dq0 6))
          (shl (g722_encode_step mem s x).2.dq1 2)) := rfl
  set d0 := (g722_encode_step mem s x).2.dq0 with hd0
  set d1 := (g722_encode_step mem s x).2.dq1 with hd1
  constructor
  · intro h
    rw [hb, if_pos h, byte48_eq]
    refine ⟨?_, ?_, ?_⟩
    · rw [land_three, land_three]; omega
    · unfold asr; omega
    · rw [land_three]
      have h256 : (256 : Int) = 2 ^ 8 := by norm_num
      rw [h256, lor_emod_two_pow]
      have e1 : shl d0 2 % 2 ^ 8 = 4 * (d0 % 64) := by unfold shl; omega
      have e2 : d1 % 4 % 2 ^ 8 = d1 % 4 := by omega
      rw [e1, e2, lor_four_mul_add _ _ (by omega) (by omega)]
  · intro h
    rw [hb, if_neg h, byteElse_eq]

/-- Witness for C5 at concrete encodings (rates 48000 and 64000). -/
theorem C5_packing_witness :
    (Int.land (g722_encode_step memZero (g722_encoder_init 48000 0) 255).1
          3 =
        Int.land
          (g722_encode_step memZero (g722_encoder_init 48000 0) 255).2.dq1
          3 ∧
      asr (g722_encode_step memZero (g722_encoder_init 48000 0) 255).1 2 =
        (g722_encode_step memZero (g722_encoder_init 48000 0) 255).2.dq0 %
          64 ∧
      (g722_encode_step memZero (g722_encoder_init 48000 0) 255).1 =
        Int.lor
          (shl (g722_encode_step memZero
            (g722_encoder_init 48000 0) 255).2.dq0 2)
          (Int.land (g722_encode_step memZero
            (g722_encoder_init 48000 0) 255).2.dq1 3) % 256) ∧
    (g722_encode_step memZero (g722_encoder_init 64000 0) 255).1 =
      Int.lor
        (shl (g722_encode_step memZero
          (g722_encoder_init 64000 0) 255).2.dq0 6)
        (shl (g722_encode_step memZero
          (g722_encoder_init 64000 0) 255).2.dq1 2) % 256 :=
  ⟨(C5_packing memZero (g722_encoder_init 48000 0) 255).1 rfl,
   (C5_packing memZero (g722_encoder_init 64000 0) 255).2 (by decide)⟩

/-- Claim C10: for every supported rate, encoding an all-zero PCM sequence
with a fresh encoder and decoding the bytes with a fresh decoder at the same
rate yields output of small magnitude after an initial transient: with
`K = 0` and `M = 512` every decoded sample at index at least `K` has
absolute value at most `M` (indeed the decoder emits the constant 512). -/
theorem C10_zero_roundtrip (mem : Int → Int) (r o : Int) (n : Nat)
    (h : r = 48000 ∨ r = 56000 ∨ r = 64000) :
    ∃ (K : Nat) (M : Int), M ≤ 512 ∧
      ∀ y ∈ (g722_decode (g722_decoder_init r o)
          (g722_encode mem (g722_encoder_init r o)
            (List.replicate n 0)).1).1.drop K, |y| ≤ M := by
  refine ⟨0, 512, le_rfl, fun y hy => ?_⟩
  rw [List.drop_zero,
    (dec_run_512 _ (g722_decoder_init r o) (dec_quiet_init r o)).1] at hy
  have hy512 := List.eq_of_mem_replicate hy
  simp [hy512]

/-- Witness for C10 at rate 64000 with three zero samples. -/
theorem C10_zero_roundtrip_witness :
    ∃ (K : Nat) (M : Int), M ≤ 512 ∧
      ∀ y ∈ (g722_decode (g722_decoder_init 64000 0)
          (g722_encode memZero (g722_encoder_init 64000 0)
            (List.replicate 3 0)).1).1.drop K, |y| ≤ M :=
  C10_zero_roundtrip memZero 64000 0 3 (by norm_num)

end G722
